import Mathlib

/-!
A verification development for `sync_sora_daily_videos.py`, the sync-and-cover
pipeline of the repository.  The Python source is shallowly embedded: file
names are `String`s, directory listings are `List`s, Python `dict`s are
insertion-ordered association lists, the JSON manifest file is an inductive
describing what `json.load` can observe, and the two external effects that can
fail (thumbnail download, ffmpeg frame extraction) are oracles passed in as
functions.  Python exceptions are `Except`.
All string operations are modelled on `String.data` (`List Char`), matching
Python's code-point semantics for slicing, `lower`, `strip`, `endswith`,
`startswith`, substring tests and single-character `replace`.
-/

namespace SoraSync

/-- Python `str.lower()` (code-point-wise; ASCII case mapping suffices here). -/
def pyLower (s : String) : String := ⟨s.data.map Char.toLower⟩

/-- Python `str.strip()`: drop leading and trailing whitespace. -/
def pyStrip (s : String) : String :=
  ⟨((s.data.dropWhile Char.isWhitespace).reverse.dropWhile Char.isWhitespace).reverse⟩

/-- Python `str.endswith(suf)`. -/
def pyEndsWith (s suf : String) : Bool := suf.data.isSuffixOf s.data

/-- Python `str.startswith(pre)`. -/
def pyStartsWith (s pre : String) : Bool := pre.data.isPrefixOf s.data

/-- Python `sub in s` (substring containment), on character lists. -/
def containsSub (sub : List Char) : List Char → Bool
  | [] => sub.isEmpty
  | c :: t => sub.isPrefixOf (c :: t) || containsSub sub t

/-- Python `sub in s` for strings. -/
def pyContains (s sub : String) : Bool := containsSub sub.data s.data

/-- Python slice `s[:-n]` (drop the last `n` code points). -/
def pyDropRight (s : String) (n : Nat) : String := ⟨s.data.take (s.data.length - n)⟩

/-- The last `n` code points of `s` (used to name the suffix `s[:-n]` removed). -/
def pyTakeRight (s : String) (n : Nat) : String := ⟨s.data.drop (s.data.length - n)⟩

/-- Python `str.isdigit()`: non-empty and all digits. -/
def pyIsDigit (s : String) : Bool := !s.data.isEmpty && s.data.all Char.isDigit

/-- `pathlib.Path(name).stem`: the file name with its last suffix removed.
The suffix starts at the last dot, provided that dot is neither the first
character nor the last one. -/
def pyStem (name : String) : String :=
  let cs := name.data
  match cs.reverse.findIdx? (· == '.') with
  | none => name
  | some j =>
    let i := cs.length - 1 - j
    if 0 < i ∧ i < cs.length - 1 then ⟨cs.take i⟩ else name

/-- A video file as discovered in a directory: its name and its mtime
(`st_mtime`, modelled as an integer timestamp). -/
structure VideoFile where
  name : String
  mtime : Int
deriving DecidableEq, Repr

/-- A `candidates` array element of a manifest entry: a JSON string or some
other JSON value (only strings are considered by the code). -/
inductive Cand where
  | str (s : String)
  | other
deriving DecidableEq, Repr

/-- A manifest entry (a JSON object).  Fields the code reads, each optional
(`item.get` returns `None` when absent). -/
structure MItem where
  asset_id : Option String := none
  title : Option String := none
  thumbnail : Option String := none
  candidates : List Cand := []
deriving DecidableEq, Repr

/-- What `json.load` can yield at top level: a JSON array of entries, or any
other JSON value. -/
inductive JsonData where
  | arr (items : List MItem)
  | nonArray
deriving DecidableEq, Repr

/-- The manifest file on disk: absent, present but not parseable as JSON
(`json.load` raises), or successfully parsed. -/
inductive ManifestFile where
  | missing
  | unparseable
  | parsed (data : JsonData)
deriving DecidableEq, Repr

/-- Insertion-ordered `dict` insert: overwrite keeps the key's position. -/
def dictInsert {α : Type} : List (String × α) → String → α → List (String × α)
  | [], k, v => [(k, v)]
  | (k', v') :: rest, k, v =>
    if k' = k then (k', v) :: rest else (k', v') :: dictInsert rest k v

/-- `dict.get`: the value stored at a key, if any. -/
def dictGet {α : Type} (d : List (String × α)) (k : String) : Option α :=
  (d.find? (fun p => p.1 == k)).map (·.2)

/-- `dict.values()`. -/
def dictValues {α : Type} (d : List (String × α)) : List α := d.map (·.2)

/-- `is_wm_video_file`: the stem, lowercased, ends with `"_wm"`. -/
def is_wm_video_file (name : String) : Bool :=
  pyEndsWith (pyLower (pyStem name)) "_wm"

/-- `normalized_asset_id_from_video`: the stem with a trailing `_wm` (case
insensitive) sliced off (`stem[:-3]`), else the stem. -/
def normalized_asset_id_from_video (name : String) : String :=
  let stem := pyStem name
  if pyEndsWith (pyLower stem) "_wm" then pyDropRight stem 3 else stem

/-- `list_syncable_videos`: the directory's `*.mp4` files, filtered by the
video-variant flag. -/
def list_syncable_videos (dirFiles : List VideoFile) (video_variant : String) : List VideoFile :=
  let files := dirFiles.filter (fun p => pyEndsWith p.name ".mp4")
  if video_variant = "main_only" then files.filter (fun p => !is_wm_video_file p.name)
  else if video_variant = "wm_only" then files.filter (fun p => is_wm_video_file p.name)
  else files

/-- `pick_thumbnail_url`'s scan of `candidates`: the first string element that
contains `"thumbnail"` and starts with `"http"`. -/
def firstThumbCand : List Cand → String
  | [] => ""
  | .str s :: rest =>
    if pyContains s "thumbnail" && pyStartsWith s "http" then s else firstThumbCand rest
  | .other :: rest => firstThumbCand rest

/-- `pick_thumbnail_url`: the trimmed `thumbnail` field if non-empty, else the
first suitable `candidates` string, else `""`. -/
def pick_thumbnail_url (item : MItem) : String :=
  let url := pyStrip (item.thumbnail.getD "")
  if url ≠ "" then url else firstThumbCand item.candidates

/-- The `by_asset` dict of `load_manifest_index`: entries keyed by their
(truthy) `asset_id`, later entries overwriting earlier ones. -/
def byAssetOf (entries : List MItem) : List (String × MItem) :=
  entries.foldl
    (fun d item =>
      match item.asset_id with
      | some a => if a ≠ "" then dictInsert d a item else d
      | none => d)
    []

/-- The `thumb_counts` dict of `load_manifest_index`: over `by_asset.values()`,
count each non-empty resolved thumbnail URL. -/
def thumbCountsOf (by_asset : List (String × MItem)) : List (String × Nat) :=
  (dictValues by_asset).foldl
    (fun tc item =>
      let url := pick_thumbnail_url item
      if url = "" then tc else dictInsert tc url ((dictGet tc url).getD 0 + 1))
    []

/-- `thumb_counts.get(url, 0)`. -/
def tcGet (tc : List (String × Nat)) (url : String) : Nat := (dictGet tc url).getD 0

/-- `load_manifest_index`: a missing file yields the empty index; a file that
`json.load` cannot parse raises (modelled as `Except.error`); parsed data that
is not a JSON array yields empty `entries` and hence an empty index. -/
def load_manifest_index (manifest : ManifestFile) :
    Except Unit (List MItem × List (String × MItem) × List (String × Nat)) :=
  match manifest with
  | .missing => .ok ([], [], [])
  | .unparseable => .error ()
  | .parsed data =>
    let entries := match data with | .arr items => items | .nonArray => []
    let by_asset := byAssetOf entries
    .ok (entries, by_asset, thumbCountsOf by_asset)

/-- `candidate_names_for_asset`. -/
def candidate_names_for_asset (asset_id video_variant : String) : List String :=
  if video_variant = "wm_only" then [asset_id ++ "_wm.mp4"]
  else if video_variant = "main_only" then [asset_id ++ ".mp4"]
  else [asset_id ++ ".mp4", asset_id ++ "_wm.mp4"]

/-- The mutable state of the flat-mode manifest-priority pass of
`ordered_source_videos`: `selected`, `used_names`, `seen_assets`. -/
structure FlatSt where
  selected : List VideoFile := []
  used : List String := []
  seen : List String := []
deriving DecidableEq, Repr

/-- The `by_name` dict of `ordered_source_videos`: files keyed by name. -/
def byNameOf (files : List VideoFile) : List (String × VideoFile) :=
  files.foldl (fun d p => dictInsert d p.name p) []

/-- The inner loop of the flat pass: try each candidate file name of one
asset, selecting on-disk matches not already used. -/
def flatTryName (by_name : List (String × VideoFile)) (st : FlatSt) (n : String) : FlatSt :=
  if st.used.contains n then st
  else
    match dictGet by_name n with
    | some p => { st with selected := st.selected ++ [p], used := st.used ++ [n] }
    | none => st

/-- One manifest entry of the flat pass: skip blank or repeated asset ids,
then try the entry's candidate file names. -/
def flatStep (by_name : List (String × VideoFile)) (video_variant : String)
    (st : FlatSt) (item : MItem) : FlatSt :=
  if pyStrip (item.asset_id.getD "") = ""
      || st.seen.contains (pyStrip (item.asset_id.getD "")) then st
  else
    (candidate_names_for_asset (pyStrip (item.asset_id.getD "")) video_variant).foldl
      (flatTryName by_name)
      { st with seen := st.seen ++ [pyStrip (item.asset_id.getD "")] }

/-- The whole flat-mode manifest-priority pass over the manifest entries. -/
def flatPass (files : List VideoFile) (manifest_entries : List MItem)
    (video_variant : String) : FlatSt :=
  manifest_entries.foldl (flatStep (byNameOf files) video_variant) {}

/-- The flat-mode backfill: files not used by the manifest pass, stably sorted
by mtime, newest first. -/
def flatBackfill (files : List VideoFile) (used : List String) : List VideoFile :=
  (files.filter (fun p => !used.contains p.name)).mergeSort
    (fun a b => decide (b.mtime ≤ a.mtime))

/-- `ordered_source_videos`: flat mode runs the manifest-priority pass then
appends the mtime-descending backfill; any other mode sorts by file name;
a positive limit truncates. -/
def ordered_source_videos (dirFiles : List VideoFile) (manifest_entries : List MItem)
    (limit : Int) (video_variant source_mode : String) : List VideoFile :=
  let files := list_syncable_videos dirFiles video_variant
  if files.isEmpty then []
  else
    let selected :=
      if source_mode = "flat" then
        let st := flatPass files manifest_entries video_variant
        st.selected ++ flatBackfill files st.used
      else
        files.mergeSort (fun a b => decide (a.name ≤ b.name))
    if 0 < limit then selected.take limit.toNat else selected

/-- Python `s.replace(a, b)` for single-character patterns. -/
def pyReplaceChar (s : String) (a b : Char) : String :=
  ⟨s.data.map (fun c => if c = a then b else c)⟩

/-- `title_for_file`: look the normalized asset id up in `manifest_map`; a
present entry with a non-empty stripped title yields that title with CR and LF
replaced by spaces and re-stripped; otherwise the normalized asset id. -/
def title_for_file (name : String) (manifest_map : List (String × MItem)) : String :=
  let stem := normalized_asset_id_from_video name
  match dictGet manifest_map stem with
  | none => stem
  | some item =>
    let title := pyStrip (item.title.getD "")
    if title ≠ "" then pyStrip (pyReplaceChar (pyReplaceChar title '\r' ' ') '\n' ' ')
    else stem

/-- One per-file sync outcome, as appended to `synced` (paths are modelled by
file names inside the target directory). -/
structure SyncResult where
  name : String
  asset_id : String
  mp4 : String
  txt : String
  title : String
  thumbnail_url : Option String
  thumbnail_file : Option String
  cover_source : Option String
  cover_reason : Option String
deriving DecidableEq, Repr

/-- The observable state of a run of `sync_videos`: the names present in the
target directory, plus logs of the effects performed (copies, sidecar writes,
thumbnail-download invocations) and the accumulated results. -/
structure SyncState where
  targetNames : List String
  copies : List String := []
  sidecars : List (String × String) := []
  downloads : List String := []
  results : List SyncResult := []
deriving DecidableEq, Repr

/-- The locals `thumbnail_file`, `cover_source`, `cover_reason` shared by the
two cover sub-procedures (`""`/`None` initially, as in the source). -/
structure CoverLocals where
  thumbnail_file : String := ""
  cover_source : Option String := none
  cover_reason : Option String := none
deriving DecidableEq, Repr

/-- `try_manifest_cover`.  `downloadErr url = none` models a successful
`download_thumbnail_image` network fetch, `some e` a raised exception with
message `e`; an existing cover with overwrite off short-circuits as success
without fetching.  `downloads` logs every actual fetch attempt. -/
def try_manifest_cover (overwrite : Bool) (downloadErr : String → Option String)
    (thumbnail_url : String) (is_duplicate_thumb : Bool) (coverName : String)
    (st : SyncState) (cl : CoverLocals) : Bool × SyncState × CoverLocals :=
  if thumbnail_url = "" then
    (false, st, { cl with cover_reason := some "no_thumbnail_url" })
  else if is_duplicate_thumb then
    (false, st, { cl with cover_reason := some "thumbnail_url_duplicated_in_manifest" })
  else if st.targetNames.contains coverName && !overwrite then
    (true, st, { cl with thumbnail_file := coverName, cover_source := some "manifest" })
  else
    match downloadErr thumbnail_url with
    | none =>
      (true,
       { st with targetNames := st.targetNames ++ [coverName],
                 downloads := st.downloads ++ [thumbnail_url] },
       { cl with thumbnail_file := coverName, cover_source := some "manifest" })
    | some e =>
      (false,
       { st with downloads := st.downloads ++ [thumbnail_url] },
       { cl with cover_reason := some ("thumbnail_download_failed: " ++ e) })

/-- `try_frame_cover`.  `frameOk dst` models whether `extract_cover_frame`'s
ffmpeg attempts produce a frame; an existing cover with overwrite off
short-circuits as success without extracting. -/
def try_frame_cover (overwrite : Bool) (frameOk : String → Bool)
    (dstName coverName : String) (st : SyncState) (cl : CoverLocals) :
    Bool × SyncState × CoverLocals :=
  if st.targetNames.contains coverName && !overwrite then
    (true, st,
     { thumbnail_file := coverName, cover_source := some "frame",
       cover_reason := some (cl.cover_reason.getD "cover_strategy_frame") })
  else if frameOk dstName then
    (true, { st with targetNames := st.targetNames ++ [coverName] },
     { thumbnail_file := coverName, cover_source := some "frame",
       cover_reason := some (cl.cover_reason.getD "cover_strategy_frame") })
  else
    (false, st, { cl with cover_reason := some (cl.cover_reason.getD "frame_extract_failed") })

/-- The cover-strategy dispatch of the `sync_videos` loop body: `manifest`
runs only the manifest sub-procedure, `frame` only the frame sub-procedure,
and anything else (`auto`) runs the manifest sub-procedure and falls back to
the frame one when it fails. -/
def coverDispatch (overwrite : Bool) (strat : String)
    (downloadErr : String → Option String) (frameOk : String → Bool)
    (thumbnail_url : String) (is_duplicate_thumb : Bool) (dstName coverName : String)
    (st : SyncState) : SyncState × CoverLocals :=
  if strat = "manifest" then
    (try_manifest_cover overwrite downloadErr thumbnail_url is_duplicate_thumb
      coverName st {}).2
  else if strat = "frame" then
    (try_frame_cover overwrite frameOk dstName coverName st {}).2
  else
    if (try_manifest_cover overwrite downloadErr thumbnail_url is_duplicate_thumb
        coverName st {}).1 then
      (try_manifest_cover overwrite downloadErr thumbnail_url is_duplicate_thumb
        coverName st {}).2
    else
      (try_frame_cover overwrite frameOk dstName coverName
        (try_manifest_cover overwrite downloadErr thumbnail_url is_duplicate_thumb
          coverName st {}).2.1
        (try_manifest_cover overwrite downloadErr thumbnail_url is_duplicate_thumb
          coverName st {}).2.2).2

/-- Lines 331-333 of the loop body: the thumbnail URL resolved for a file's
asset id (`""` when no manifest entry exists). -/
def syncThumbUrl (manifest_map : List (String × MItem)) (asset_id : String) : String :=
  match dictGet manifest_map asset_id with
  | some item => pick_thumbnail_url item
  | none => ""

/-- Line 334 of the loop body: `is_duplicate_thumb`. -/
def syncDup (thumb_counts : List (String × Nat)) (url : String) : Bool :=
  url != "" && decide (1 < tcGet thumb_counts url)

/-- Line 342: `(cover_strategy or "auto").lower().strip()`. -/
def normStrategy (cover_strategy : String) : String :=
  pyStrip (pyLower (if cover_strategy = "" then "auto" else cover_strategy))

/-- Lines 324-329 of the loop body: copy the mp4 and write the sidecar. -/
def syncCopyState (manifest_map : List (String × MItem)) (st : SyncState)
    (src : VideoFile) : SyncState :=
  { st with targetNames := (st.targetNames ++ [src.name]) ++ [pyStem src.name ++ ".txt"],
            copies := st.copies ++ [src.name],
            sidecars := st.sidecars ++
              [(pyStem src.name ++ ".txt",
                title_for_file src.name manifest_map ++ "\n#sora\n")] }

/-- The cover resolution call of the loop body, with the locals it reads. -/
def syncCoverCall (overwrite : Bool) (cover_strategy : String)
    (downloadErr : String → Option String) (frameOk : String → Bool)
    (manifest_map : List (String × MItem)) (thumb_counts : List (String × Nat))
    (st2 : SyncState) (src : VideoFile) : SyncState × CoverLocals :=
  coverDispatch overwrite (normStrategy cover_strategy) downloadErr frameOk
    (syncThumbUrl manifest_map (normalized_asset_id_from_video src.name))
    (syncDup thumb_counts (syncThumbUrl manifest_map (normalized_asset_id_from_video src.name)))
    src.name (pyStem src.name ++ ".png") st2

/-- Lines 384-396: the `SyncResult` dict appended to `synced`. -/
def syncResultOf (manifest_map : List (String × MItem)) (cl : CoverLocals)
    (src : VideoFile) : SyncResult :=
  { name := src.name,
    asset_id := normalized_asset_id_from_video src.name,
    mp4 := src.name,
    txt := pyStem src.name ++ ".txt",
    title := title_for_file src.name manifest_map,
    thumbnail_url :=
      if syncThumbUrl manifest_map (normalized_asset_id_from_video src.name) = "" then none
      else some (syncThumbUrl manifest_map (normalized_asset_id_from_video src.name)),
    thumbnail_file := if cl.thumbnail_file = "" then none else some cl.thumbnail_file,
    cover_source := cl.cover_source,
    cover_reason := cl.cover_reason }

/-- The loop body of `sync_videos` for one selected file: skip when the
destination exists and overwrite is off; else copy, write the sidecar,
resolve the cover per strategy, and append a result. -/
def syncOne (overwrite : Bool) (cover_strategy : String)
    (downloadErr : String → Option String) (frameOk : String → Bool)
    (manifest_map : List (String × MItem)) (thumb_counts : List (String × Nat))
    (st : SyncState) (src : VideoFile) : SyncState :=
  if st.targetNames.contains src.name && !overwrite then st
  else
    let stcl := syncCoverCall overwrite cover_strategy downloadErr frameOk
      manifest_map thumb_counts (syncCopyState manifest_map st src) src
    { stcl.1 with results := stcl.1.results ++ [syncResultOf manifest_map stcl.2 src] }

/-- The `sync_videos` loop over an already-selected file list and an
already-loaded manifest index. -/
def syncCore (overwrite : Bool) (cover_strategy : String)
    (downloadErr : String → Option String) (frameOk : String → Bool)
    (manifest_map : List (String × MItem)) (thumb_counts : List (String × Nat))
    (files : List VideoFile) (st : SyncState) : SyncState :=
  files.foldl (syncOne overwrite cover_strategy downloadErr frameOk manifest_map thumb_counts) st

/-- `sync_videos`: load the manifest index (propagating a JSON parse error),
select and order the source files, and run the per-file loop starting from the
target directory's current contents. -/
def sync_videos (manifest : ManifestFile) (dirFiles : List VideoFile)
    (target0 : List String) (limit : Int) (overwrite : Bool)
    (cover_strategy video_variant source_mode : String)
    (downloadErr : String → Option String) (frameOk : String → Bool) :
    Except Unit SyncState :=
  match load_manifest_index manifest with
  | .error e => .error e
  | .ok (entries, manifest_map, thumb_counts) =>
    .ok (syncCore overwrite cover_strategy downloadErr frameOk manifest_map thumb_counts
      (ordered_source_videos dirFiles entries limit video_variant source_mode)
      { targetNames := target0 })

/-- A source directory: its video files and its `manifest.latest.json`. -/
structure Dir where
  files : List VideoFile
  manifest : ManifestFile
deriving DecidableEq, Repr

/-- The source root: the flat directory itself plus its immediate
subdirectories, keyed by name. -/
structure SourceRoot where
  root : Dir
  subdirs : List (String × Dir)
deriving DecidableEq, Repr

/-- Error text of `resolve_source_dir` when neither daily folders nor flat
videos exist under the root (the concrete paths of the message are elided). -/
def errNoSourceFound : String :=
  "No daily folders like YYYYMMDD under source root, and no syncable videos found under source root"

/-- Error text of `resolve_source_dir` when flat-root mode was forced but the
root has no syncable videos. -/
def errNoSyncableRoot : String := "No syncable videos found under source root"

/-- Error text of `resolve_source_dir` when an explicit date folder is absent. -/
def errDateFolderNotFound : String := "Date folder not found"

/-- The daily subdirectories: name exactly 8 characters, all digits. -/
def dailyDirsOf (subdirs : List (String × Dir)) : List (String × Dir) :=
  subdirs.filter (fun d => pyIsDigit d.1 && d.1.data.length == 8)

/-- `resolve_source_dir`: pick the source directory and mode from the date
token, raising `FileNotFoundError` (modelled as `Except.error`) on failure. -/
def resolve_source_dir (sourceRoot : SourceRoot) (date_arg video_variant : String) :
    Except String (Dir × String) :=
  let date_value := pyStrip (if date_arg = "" then "latest" else date_arg)
  let date_lower := pyLower date_value
  if date_lower = "latest" then
    match (dailyDirsOf sourceRoot.subdirs).mergeSort (fun a b => decide (b.1 ≤ a.1)) with
    | d :: _ => .ok (d.2, "daily")
    | [] =>
      if (list_syncable_videos sourceRoot.root.files video_variant).isEmpty then
        .error errNoSourceFound
      else .ok (sourceRoot.root, "flat")
  else if date_lower = "root" ∨ date_lower = "flat" ∨ date_lower = "." then
    if (list_syncable_videos sourceRoot.root.files video_variant).isEmpty then
      .error errNoSyncableRoot
    else .ok (sourceRoot.root, "flat")
  else
    match dictGet sourceRoot.subdirs date_value with
    | some d => .ok (d, "daily")
    | none => .error errDateFolderNotFound

/-- The run record written by `write_record` (path fields and the wall-clock
timestamp are elided). -/
structure RunRecord where
  source_mode : String
  video_variant : String
  synced_count : Nat
  synced_files : List SyncResult
deriving DecidableEq, Repr

/-- The outcome of a completed `main` invocation: the final sync state and the
record that `write_record` persisted. -/
structure MainOut where
  sync : SyncState
  record : RunRecord
deriving DecidableEq, Repr

/-- `main` after argument parsing: resolve the source (an exception here
propagates before `sync_videos` copies anything and before `write_record`
runs, so `Except.error` carries no sync state and no record), then sync, then
write the record. -/
def main_model (sourceRoot : SourceRoot) (date_arg video_variant : String)
    (target0 : List String) (limit : Int) (overwrite : Bool) (cover_strategy : String)
    (downloadErr : String → Option String) (frameOk : String → Bool) :
    Except String MainOut :=
  match resolve_source_dir sourceRoot date_arg video_variant with
  | .error e => .error e
  | .ok (dir, source_mode) =>
    match sync_videos dir.manifest dir.files target0 limit overwrite
        cover_strategy video_variant source_mode downloadErr frameOk with
    | .error _ => .error "manifest JSON decode error"
    | .ok st =>
      .ok { sync := st,
            record := { source_mode := source_mode, video_variant := video_variant,
                        synced_count := st.results.length, synced_files := st.results } }

/-! ### Generic helper lemmas -/

theorem foldl_inv {β σ : Type} (P : σ → Prop) (f : σ → β → σ)
    (hf : ∀ s b, P s → P (f s b)) :
    ∀ (l : List β) (s : σ), P s → P (l.foldl f s)
  | [], _, h => h
  | b :: t, s, h => foldl_inv P f hf t (f s b) (hf s b h)

theorem mem_dictInsert {α : Type} {d : List (String × α)} {k : String} {v : α}
    {kv : String × α} (h : kv ∈ dictInsert d k v) : kv ∈ d ∨ kv = (k, v) := by
  induction d with
  | nil => simpa [dictInsert] using h
  | cons hd tl ih =>
    unfold dictInsert at h
    by_cases hk : hd.1 = k
    · rw [if_pos hk] at h
      rcases List.mem_cons.mp h with h1 | h1
      · right; rw [h1, hk]
      · left; exact List.mem_cons_of_mem _ h1
    · rw [if_neg hk] at h
      rcases List.mem_cons.mp h with h1 | h1
      · left; rw [h1]; exact List.mem_cons_self _ _
      · rcases ih h1 with h2 | h2
        · left; exact List.mem_cons_of_mem _ h2
        · right; exact h2

theorem dictGet_eq_some_mem {α : Type} {d : List (String × α)} {k : String} {v : α}
    (h : dictGet d k = some v) : (k, v) ∈ d := by
  unfold dictGet at h
  cases hf : d.find? (fun p => p.1 == k) with
  | none => rw [hf] at h; simp at h
  | some kv =>
    rw [hf] at h
    simp only [Option.map_some'] at h
    have hmem := List.mem_of_find?_eq_some hf
    have hp := List.find?_some hf
    have hk : kv.1 = k := by simpa using hp
    have hv : kv.2 = v := by simpa using h
    have hkv : kv = (k, v) := by
      rw [← hk, ← hv]
    rwa [hkv] at hmem

theorem dictGet_eq_none_iff {α : Type} {d : List (String × α)} {k : String} :
    dictGet d k = none ↔ ∀ kv ∈ d, kv.1 ≠ k := by
  unfold dictGet
  simp [Option.map_eq_none', List.find?_eq_none]

/-- Every stored pair of the `by_name` dict is a file of the directory keyed
by its own name. -/
theorem byNameOf_mem {files : List VideoFile} {kv : String × VideoFile}
    (h : kv ∈ byNameOf files) : kv.2.name = kv.1 ∧ kv.2 ∈ files := by
  unfold byNameOf at h
  have main : ∀ (l : List VideoFile) (d : List (String × VideoFile)),
      (∀ kv' ∈ d, kv'.2.name = kv'.1 ∧ kv'.2 ∈ files) →
      (∀ p ∈ l, p ∈ files) →
      ∀ kv' ∈ l.foldl (fun d p => dictInsert d p.name p) d,
        kv'.2.name = kv'.1 ∧ kv'.2 ∈ files := by
    intro l
    induction l with
    | nil => intro d hd _ kv' hkv'; exact hd kv' hkv'
    | cons p t ih =>
      intro d hd hl kv' hkv'
      refine ih (dictInsert d p.name p) ?_ (fun q hq => hl q (List.mem_cons_of_mem _ hq)) kv' hkv'
      intro kv'' hkv''
      rcases mem_dictInsert hkv'' with h' | h'
      · exact hd kv'' h'
      · rw [h']; exact ⟨rfl, hl p (List.mem_cons_self _ _)⟩
  exact main files [] (by simp) (fun p hp => hp) kv h

/-! ### C6 — manifest index loading -/

/-- C6 counterexample: a manifest file that exists but is not parseable as
JSON does *not* yield an empty index; `json.load` raises, and
`load_manifest_index` propagates the exception. -/
theorem C6_counterexample :
    load_manifest_index ManifestFile.unparseable = Except.error () := rfl

/-- C6 (amended): a missing manifest file, or one whose parsed JSON is not an
array, yields the empty index (empty entries, empty asset map, empty
thumbnail counts) rather than an error; only an unparseable file raises. -/
theorem C6_empty_index_on_missing_or_nonarray :
    load_manifest_index ManifestFile.missing = Except.ok ([], [], []) ∧
    load_manifest_index (ManifestFile.parsed JsonData.nonArray) = Except.ok ([], [], []) ∧
    load_manifest_index ManifestFile.unparseable = Except.error () :=
  ⟨rfl, rfl, rfl⟩

/-! ### C7 — thumbnail URL selection -/

/-- The claim's candidate predicate: a string element starting with `"http"`
and containing the substring `"thumbnail"`. -/
def specCandGood : Cand → Bool
  | .str s => pyStartsWith s "http" && pyContains s "thumbnail"
  | .other => false

/-- The thumbnail-selection rule as the spec words it: the trimmed primary
`thumbnail` field when non-empty, else the first good candidate, else `""`. -/
def specThumbnailUrl (item : MItem) : String :=
  let t := pyStrip (item.thumbnail.getD "")
  if t ≠ "" then t
  else
    match item.candidates.find? specCandGood with
    | some (.str s) => s
    | _ => ""

theorem firstThumbCand_eq_find (cs : List Cand) :
    firstThumbCand cs =
      (match cs.find? specCandGood with | some (.str s) => s | _ => "") := by
  induction cs with
  | nil => rfl
  | cons c t ih =>
    cases c with
    | str s =>
      by_cases h : (pyContains s "thumbnail" && pyStartsWith s "http") = true
      · have h' : specCandGood (.str s) = true := by
          simp only [specCandGood]
          rw [Bool.and_comm] at h
          exact h
        simp [firstThumbCand, h, List.find?, h']
      · have h' : specCandGood (.str s) = false := by
          simp only [specCandGood]
          rw [Bool.and_comm] at h
          simpa using h
        simp only [firstThumbCand, if_neg h, List.find?, h']
        exact ih
    | other =>
      simp only [firstThumbCand, List.find?, specCandGood]
      exact ih

/-- C7: for every manifest entry, the resolved thumbnail URL is the trimmed
`thumbnail` field if non-empty after trimming, otherwise the first element of
`candidates` that is a string starting with "http" and containing the
substring "thumbnail", otherwise the empty string. -/
theorem C7_pick_thumbnail_url (item : MItem) :
    pick_thumbnail_url item = specThumbnailUrl item := by
  by_cases h : pyStrip (item.thumbnail.getD "") = ""
  · simp [pick_thumbnail_url, specThumbnailUrl, h, firstThumbCand_eq_find]
  · simp [pick_thumbnail_url, specThumbnailUrl, h]

/-! ### C8 — asset id derivation and marked-variant classification -/

theorem pyDropRight_append_pyTakeRight (s : String) (n : Nat) :
    pyDropRight s n ++ pyTakeRight s n = s := by
  have h : (pyDropRight s n ++ pyTakeRight s n).data = s.data := by
    rw [String.data_append]
    exact List.take_append_drop _ _
  calc pyDropRight s n ++ pyTakeRight s n
      = ⟨(pyDropRight s n ++ pyTakeRight s n).data⟩ := rfl
    _ = ⟨s.data⟩ := congrArg String.mk h
    _ = s := rfl

/-- C8: a file is classified as a marked variant exactly when its stem (case
folded) ends with the `_wm` marker; in that case the derived asset id, with
the stem's final three characters (which case-fold to `"_wm"`) re-appended,
reconstructs the stem; otherwise the asset id is the stem unchanged. -/
theorem C8_asset_id_and_classification (name : String) :
    (is_wm_video_file name = true →
      normalized_asset_id_from_video name ++ pyTakeRight (pyStem name) 3 = pyStem name ∧
      pyLower (pyTakeRight (pyStem name) 3) = "_wm") ∧
    (is_wm_video_file name = false →
      normalized_asset_id_from_video name = pyStem name) ∧
    (is_wm_video_file name = true ↔
      List.IsSuffix "_wm".data (pyLower (pyStem name)).data) := by
  refine ⟨?_, ?_, ?_⟩
  · intro h
    have hcond : pyEndsWith (pyLower (pyStem name)) "_wm" = true := h
    have hnorm : normalized_asset_id_from_video name = pyDropRight (pyStem name) 3 := by
      simp only [normalized_asset_id_from_video, hcond, if_true]
    constructor
    · rw [hnorm]; exact pyDropRight_append_pyTakeRight _ _
    · have hsuf : List.IsSuffix "_wm".data (pyLower (pyStem name)).data := by
        have := hcond
        unfold pyEndsWith at this
        simpa using this
      obtain ⟨t, ht⟩ := hsuf
      have hlower : (pyLower (pyStem name)).data = (pyStem name).data.map Char.toLower := rfl
      have hlen : (pyStem name).data.length = t.length + 3 := by
        have := congrArg List.length ht
        simp at this
        rw [hlower] at ht
        have h2 := congrArg List.length ht
        simpa using h2.symm
      have hdata : (pyLower (pyTakeRight (pyStem name) 3)).data = "_wm".data := by
        show ((pyStem name).data.drop ((pyStem name).data.length - 3)).map Char.toLower
            = "_wm".data
        rw [List.map_drop]
        have h3 : (pyStem name).data.length - 3 = t.length := by omega
        rw [h3]
        show ((pyLower (pyStem name)).data).drop t.length = "_wm".data
        rw [← ht]
        exact List.drop_left _ _
      calc pyLower (pyTakeRight (pyStem name) 3)
          = ⟨(pyLower (pyTakeRight (pyStem name) 3)).data⟩ := rfl
        _ = ⟨"_wm".data⟩ := congrArg String.mk hdata
        _ = "_wm" := rfl
  · intro h
    have hcond : pyEndsWith (pyLower (pyStem name)) "_wm" = false := h
    simp [normalized_asset_id_from_video, hcond]
  · unfold is_wm_video_file pyEndsWith
    simp

/-- C8 witness: concrete checks at `a_wm.mp4` (marked) and `b.mp4`
(unmarked). -/
theorem C8_witness :
    (normalized_asset_id_from_video "a_wm.mp4" ++ pyTakeRight (pyStem "a_wm.mp4") 3
       = pyStem "a_wm.mp4" ∧
     pyLower (pyTakeRight (pyStem "a_wm.mp4") 3) = "_wm") ∧
    normalized_asset_id_from_video "b.mp4" = pyStem "b.mp4" :=
  ⟨(C8_asset_id_and_classification "a_wm.mp4").1 (by decide),
   (C8_asset_id_and_classification "b.mp4").2.1 (by decide)⟩

/-! ### C9 — dated-mode ordering -/

/-- C9: in dated mode with no limit, the File Selector's output is sorted
lexicographically by file name and is a permutation of the discovered,
variant-filtered files — i.e. it equals the files sorted by name. -/
theorem C9_dated_mode_sorted_by_name (dirFiles : List VideoFile) (entries : List MItem)
    (video_variant : String) :
    (ordered_source_videos dirFiles entries 0 video_variant "daily").Pairwise
        (fun a b => a.name ≤ b.name) ∧
    (ordered_source_videos dirFiles entries 0 video_variant "daily").Perm
        (list_syncable_videos dirFiles video_variant) := by
  unfold ordered_source_videos
  by_cases he : (list_syncable_videos dirFiles video_variant).isEmpty
  · have hnil : list_syncable_videos dirFiles video_variant = [] := by
      simpa using he
    simp [he, hnil]
  · rw [if_neg he]
    have hmode : ¬ ("daily" = "flat") := by decide
    rw [if_neg hmode]
    have hlim : ¬ ((0 : Int) < 0) := by decide
    rw [if_neg hlim]
    constructor
    · have htrans : ∀ a b c : VideoFile,
          decide (a.name ≤ b.name) = true → decide (b.name ≤ c.name) = true →
          decide (a.name ≤ c.name) = true := by
        intro a b c hab hbc
        simp only [decide_eq_true_eq] at *
        exact le_trans hab hbc
      have htotal : ∀ a b : VideoFile,
          (decide (a.name ≤ b.name) || decide (b.name ≤ a.name)) = true := by
        intro a b
        simp only [Bool.or_eq_true, decide_eq_true_eq]
        exact le_total a.name b.name
      have hs := List.sorted_mergeSort htrans htotal
        (list_syncable_videos dirFiles video_variant)
      exact hs.imp (fun h => by simpa using h)
    · exact List.mergeSort_perm _ _

/-! ### C5 — flat-root resolution failure -/

/-- C5: when the date token means flat root (`root`, `flat`, or `.` after
trimming and lowercasing) and the source root holds no syncable videos under
the active variant filter, `resolve_source_dir` fails with the
no-syncable-files error, and `main` therefore aborts before `sync_videos` or
`write_record` run: the error outcome carries no sync state and no record. -/
theorem C5_flat_root_no_syncable_aborts
    (sourceRoot : SourceRoot) (date_arg video_variant : String) (target0 : List String)
    (limit : Int) (overwrite : Bool) (cover_strategy : String)
    (downloadErr : String → Option String) (frameOk : String → Bool)
    (hdate : pyLower (pyStrip (if date_arg = "" then "latest" else date_arg)) = "root" ∨
             pyLower (pyStrip (if date_arg = "" then "latest" else date_arg)) = "flat" ∨
             pyLower (pyStrip (if date_arg = "" then "latest" else date_arg)) = ".")
    (hempty : list_syncable_videos sourceRoot.root.files video_variant = []) :
    resolve_source_dir sourceRoot date_arg video_variant = .error errNoSyncableRoot ∧
    main_model sourceRoot date_arg video_variant target0 limit overwrite cover_strategy
      downloadErr frameOk = .error errNoSyncableRoot := by
  have hres : resolve_source_dir sourceRoot date_arg video_variant
      = .error errNoSyncableRoot := by
    rcases hdate with h | h | h <;> simp [resolve_source_dir, h, hempty]
  refine ⟨hres, ?_⟩
  simp [main_model, hres]

/-- C5 witness: a concrete root with no mp4 files and date token `root`. -/
theorem C5_witness :
    resolve_source_dir ⟨⟨[⟨"notes.txt", 3⟩], ManifestFile.missing⟩, []⟩ "root" "all"
      = .error errNoSyncableRoot ∧
    main_model ⟨⟨[⟨"notes.txt", 3⟩], ManifestFile.missing⟩, []⟩ "root" "all" [] 0 false
      "auto" (fun _ => none) (fun _ => false) = .error errNoSyncableRoot :=
  C5_flat_root_no_syncable_aborts ⟨⟨[⟨"notes.txt", 3⟩], ManifestFile.missing⟩, []⟩
    "root" "all" [] 0 false "auto" (fun _ => none) (fun _ => false)
    (Or.inl (by decide)) (by decide)

/-! ### Cover sub-procedure bookkeeping lemmas -/

theorem try_manifest_cover_preserve (overwrite : Bool) (downloadErr : String → Option String)
    (url : String) (dup : Bool) (cov : String) (st : SyncState) (cl : CoverLocals) :
    (try_manifest_cover overwrite downloadErr url dup cov st cl).2.1.results = st.results ∧
    (try_manifest_cover overwrite downloadErr url dup cov st cl).2.1.sidecars = st.sidecars ∧
    (try_manifest_cover overwrite downloadErr url dup cov st cl).2.1.copies = st.copies ∧
    st.targetNames ⊆ (try_manifest_cover overwrite downloadErr url dup cov st cl).2.1.targetNames := by
  unfold try_manifest_cover
  split
  · exact ⟨rfl, rfl, rfl, fun a h => h⟩
  · split
    · exact ⟨rfl, rfl, rfl, fun a h => h⟩
    · split
      · exact ⟨rfl, rfl, rfl, fun a h => h⟩
      · split
        · exact ⟨rfl, rfl, rfl, List.subset_append_left _ _⟩
        · exact ⟨rfl, rfl, rfl, fun a h => h⟩

theorem try_frame_cover_preserve (overwrite : Bool) (frameOk : String → Bool)
    (dst cov : String) (st : SyncState) (cl : CoverLocals) :
    (try_frame_cover overwrite frameOk dst cov st cl).2.1.results = st.results ∧
    (try_frame_cover overwrite frameOk dst cov st cl).2.1.sidecars = st.sidecars ∧
    (try_frame_cover overwrite frameOk dst cov st cl).2.1.copies = st.copies ∧
    (try_frame_cover overwrite frameOk dst cov st cl).2.1.downloads = st.downloads ∧
    st.targetNames ⊆ (try_frame_cover overwrite frameOk dst cov st cl).2.1.targetNames := by
  unfold try_frame_cover
  split
  · exact ⟨rfl, rfl, rfl, rfl, fun a h => h⟩
  · split
    · exact ⟨rfl, rfl, rfl, rfl, List.subset_append_left _ _⟩
    · exact ⟨rfl, rfl, rfl, rfl, fun a h => h⟩

theorem coverDispatch_preserve (overwrite : Bool) (strat : String)
    (downloadErr : String → Option String) (frameOk : String → Bool)
    (url : String) (dup : Bool) (dst cov : String) (st : SyncState) :
    (coverDispatch overwrite strat downloadErr frameOk url dup dst cov st).1.results
      = st.results ∧
    (coverDispatch overwrite strat downloadErr frameOk url dup dst cov st).1.sidecars
      = st.sidecars ∧
    (coverDispatch overwrite strat downloadErr frameOk url dup dst cov st).1.copies
      = st.copies ∧
    st.targetNames ⊆
      (coverDispatch overwrite strat downloadErr frameOk url dup dst cov st).1.targetNames := by
  unfold coverDispatch
  split
  · exact try_manifest_cover_preserve overwrite downloadErr url dup cov st {}
  · split
    · have h := try_frame_cover_preserve overwrite frameOk dst cov st {}
      exact ⟨h.1, h.2.1, h.2.2.1, h.2.2.2.2⟩
    · split
      · exact try_manifest_cover_preserve overwrite downloadErr url dup cov st {}
      · have h1 := try_manifest_cover_preserve overwrite downloadErr url dup cov st {}
        have h2 := try_frame_cover_preserve overwrite frameOk dst cov
          (try_manifest_cover overwrite downloadErr url dup cov st {}).2.1
          (try_manifest_cover overwrite downloadErr url dup cov st {}).2.2
        refine ⟨?_, ?_, ?_, ?_⟩
        · rw [h2.1, h1.1]
        · rw [h2.2.1, h1.2.1]
        · rw [h2.2.2.1, h1.2.2.1]
        · exact fun a ha => h2.2.2.2.2 (h1.2.2.2 ha)

/-! ### C1 — title resolution -/

/-- The amended title rule as worded: look the file's derived asset id up in
the manifest map; when an entry exists whose stripped title is non-empty, the
title is that stripped title with CR and LF replaced by spaces and stripped
again; otherwise it is the derived asset id itself. -/
def amendedTitleRule (name : String) (manifest_map : List (String × MItem)) : String :=
  let aid := normalized_asset_id_from_video name
  match dictGet manifest_map aid with
  | some item =>
    let t := pyStrip (item.title.getD "")
    if t = "" then aid
    else pyStrip (pyReplaceChar (pyReplaceChar t '\r' ' ') '\n' ' ')
  | none => aid

theorem title_for_file_eq_amendedRule (name : String)
    (manifest_map : List (String × MItem)) :
    title_for_file name manifest_map = amendedTitleRule name manifest_map := by
  unfold title_for_file amendedTitleRule
  cases hd : dictGet manifest_map (normalized_asset_id_from_video name) with
  | none => simp [hd]
  | some item =>
    simp only [hd]
    by_cases h : pyStrip (item.title.getD "") = ""
    · simp [h]
    · simp [h]

/-- The per-run title/sidecar invariant: every recorded result carries the
rule's title, and the sidecar writes are exactly one two-line file per result
(title line, then the hashtag line). -/
def TitleInv (manifest_map : List (String × MItem)) (st : SyncState) : Prop :=
  (∀ r ∈ st.results, r.title = amendedTitleRule r.name manifest_map) ∧
  st.sidecars = st.results.map
    (fun r => (pyStem r.name ++ ".txt", r.title ++ "\n#sora\n"))

theorem syncCoverCall_preserve (overwrite : Bool) (cover_strategy : String)
    (downloadErr : String → Option String) (frameOk : String → Bool)
    (manifest_map : List (String × MItem)) (thumb_counts : List (String × Nat))
    (st2 : SyncState) (src : VideoFile) :
    (syncCoverCall overwrite cover_strategy downloadErr frameOk manifest_map thumb_counts
      st2 src).1.results = st2.results ∧
    (syncCoverCall overwrite cover_strategy downloadErr frameOk manifest_map thumb_counts
      st2 src).1.sidecars = st2.sidecars ∧
    (syncCoverCall overwrite cover_strategy downloadErr frameOk manifest_map thumb_counts
      st2 src).1.copies = st2.copies ∧
    st2.targetNames ⊆
      (syncCoverCall overwrite cover_strategy downloadErr frameOk manifest_map thumb_counts
        st2 src).1.targetNames :=
  coverDispatch_preserve overwrite (normStrategy cover_strategy) downloadErr frameOk
    (syncThumbUrl manifest_map (normalized_asset_id_from_video src.name))
    (syncDup thumb_counts (syncThumbUrl manifest_map (normalized_asset_id_from_video src.name)))
    src.name (pyStem src.name ++ ".png") st2

theorem syncOne_titleInv (overwrite : Bool) (cover_strategy : String)
    (downloadErr : String → Option String) (frameOk : String → Bool)
    (manifest_map : List (String × MItem)) (thumb_counts : List (String × Nat))
    (st : SyncState) (src : VideoFile) (h : TitleInv manifest_map st) :
    TitleInv manifest_map
      (syncOne overwrite cover_strategy downloadErr frameOk manifest_map thumb_counts st src) := by
  unfold syncOne
  by_cases hskip : (st.targetNames.contains src.name && !overwrite) = true
  · rw [if_pos hskip]; exact h
  · rw [if_neg hskip]
    simp only []
    have hp := syncCoverCall_preserve overwrite cover_strategy downloadErr frameOk
      manifest_map thumb_counts (syncCopyState manifest_map st src) src
    constructor
    · intro r hr
      simp only [hp.1] at hr
      simp only [syncCopyState] at hr
      rcases List.mem_append.mp hr with hr | hr
      · exact h.1 r hr
      · have hre : r = syncResultOf manifest_map
            (syncCoverCall overwrite cover_strategy downloadErr frameOk manifest_map
              thumb_counts (syncCopyState manifest_map st src) src).2 src :=
          List.mem_singleton.mp hr
        rw [hre]
        simp only [syncResultOf]
        exact title_for_file_eq_amendedRule src.name manifest_map
    · simp only [hp.1, hp.2.1]
      simp only [syncCopyState]
      simp only [List.map_append, List.map_cons, List.map_nil]
      rw [h.2]
      simp [syncResultOf]

unseal List.merge List.mergeSort in
/-- C1 counterexample: with an empty manifest (missing file), the video
`a_wm.mp4` gets title `"a"` — the suffix-stripped asset id — in both the
recorded result and the sidecar, not the filename stem `"a_wm"` the claim
requires. -/
theorem C1_counterexample :
    (sync_videos ManifestFile.missing [⟨"a_wm.mp4", 0⟩] [] 0 false "frame" "all" "daily"
        (fun _ => none) (fun _ => false)).map
      (fun st => (st.results.map (fun r => r.title), st.sidecars))
      = Except.ok (["a"], [("a_wm.txt", "a\n#sora\n")]) ∧
    pyStem "a_wm.mp4" = "a_wm" ∧ ("a" : String) ≠ "a_wm" := by
  exact ⟨by rfl, by decide, by decide⟩

/-- C1 (amended): for every synced video, the title written to the sidecar
and recorded in the result is the manifest entry's stripped title with CR/LF
replaced by spaces and re-stripped, when the entry (looked up by the derived
asset id) exists with a non-empty stripped title, and otherwise the video's
derived asset id (the stem with the marked-variant suffix removed); each
result is paired with exactly one sidecar holding that title plus the
hashtag line. -/
theorem C1_title_and_sidecar (manifest : ManifestFile) (dirFiles : List VideoFile)
    (target0 : List String) (limit : Int) (overwrite : Bool)
    (cover_strategy video_variant source_mode : String)
    (downloadErr : String → Option String) (frameOk : String → Bool)
    (entries : List MItem) (mm : List (String × MItem)) (tc : List (String × Nat))
    (out : SyncState)
    (hload : load_manifest_index manifest = .ok (entries, mm, tc))
    (hrun : sync_videos manifest dirFiles target0 limit overwrite cover_strategy
      video_variant source_mode downloadErr frameOk = .ok out) :
    (∀ r ∈ out.results, r.title = amendedTitleRule r.name mm) ∧
    out.sidecars = out.results.map
      (fun r => (pyStem r.name ++ ".txt", r.title ++ "\n#sora\n")) := by
  unfold sync_videos at hrun
  rw [hload] at hrun
  simp only [Except.ok.injEq] at hrun
  have hinv : TitleInv mm out := by
    rw [← hrun]
    unfold syncCore
    refine foldl_inv (TitleInv mm) _
      (fun s b hs => syncOne_titleInv overwrite cover_strategy downloadErr frameOk
        mm tc s b hs) _ _ ?_
    exact ⟨fun r hr => absurd hr (by simp), rfl⟩
  exact hinv

/-- The manifest entry of the C1 witness run. -/
def c1Item : MItem := { asset_id := some "x", title := some " Hello\nWorld " }

/-- The final state of the C1 witness run. -/
def c1Out : SyncState :=
  { targetNames := ["x.mp4", "x.txt"],
    copies := ["x.mp4"],
    sidecars := [("x.txt", "Hello World\n#sora\n")],
    downloads := [],
    results := [{ name := "x.mp4", asset_id := "x", mp4 := "x.mp4", txt := "x.txt",
                  title := "Hello World", thumbnail_url := none, thumbnail_file := none,
                  cover_source := none, cover_reason := some "frame_extract_failed" }] }

unseal List.merge List.mergeSort in
/-- C1 witness: a concrete run over `x.mp4` with a manifest title
`" Hello\nWorld "`, which the rule resolves to `"Hello World"`. -/
theorem C1_witness :
    (∀ r ∈ c1Out.results, r.title = amendedTitleRule r.name [("x", c1Item)]) ∧
    c1Out.sidecars = c1Out.results.map
      (fun r => (pyStem r.name ++ ".txt", r.title ++ "\n#sora\n")) :=
  C1_title_and_sidecar (ManifestFile.parsed (JsonData.arr [c1Item])) [⟨"x.mp4", 0⟩]
    [] 0 false "frame" "all" "daily" (fun _ => none) (fun _ => false)
    [c1Item] [("x", c1Item)] [] c1Out (by rfl) (by rfl)

/-! ### C4 — skip-on-existing and idempotence -/

theorem syncOne_targetNames_mono (overwrite : Bool) (cover_strategy : String)
    (downloadErr : String → Option String) (frameOk : String → Bool)
    (manifest_map : List (String × MItem)) (thumb_counts : List (String × Nat))
    (st : SyncState) (src : VideoFile) :
    st.targetNames ⊆
      (syncOne overwrite cover_strategy downloadErr frameOk manifest_map thumb_counts
        st src).targetNames := by
  unfold syncOne
  by_cases hskip : (st.targetNames.contains src.name && !overwrite) = true
  · rw [if_pos hskip]; exact fun a h => h
  · rw [if_neg hskip]
    simp only []
    intro a ha
    have hp := syncCoverCall_preserve overwrite cover_strategy downloadErr frameOk
      manifest_map thumb_counts (syncCopyState manifest_map st src) src
    refine hp.2.2.2 ?_
    simp only [syncCopyState, List.append_assoc, List.mem_append]
    exact Or.inl ha

theorem syncOne_name_mem (overwrite : Bool) (cover_strategy : String)
    (downloadErr : String → Option String) (frameOk : String → Bool)
    (manifest_map : List (String × MItem)) (thumb_counts : List (String × Nat))
    (st : SyncState) (src : VideoFile) :
    src.name ∈
      (syncOne overwrite cover_strategy downloadErr frameOk manifest_map thumb_counts
        st src).targetNames := by
  unfold syncOne
  by_cases hskip : (st.targetNames.contains src.name && !overwrite) = true
  · rw [if_pos hskip]
    have hc : st.targetNames.contains src.name = true := (Bool.and_eq_true_iff.mp hskip).1
    simpa using hc
  · rw [if_neg hskip]
    simp only []
    have hp := syncCoverCall_preserve overwrite cover_strategy downloadErr frameOk
      manifest_map thumb_counts (syncCopyState manifest_map st src) src
    refine hp.2.2.2 ?_
    simp [syncCopyState]

theorem syncCore_targetNames_mono (overwrite : Bool) (cover_strategy : String)
    (downloadErr : String → Option String) (frameOk : String → Bool)
    (manifest_map : List (String × MItem)) (thumb_counts : List (String × Nat)) :
    ∀ (files : List VideoFile) (st : SyncState),
    st.targetNames ⊆
      (syncCore overwrite cover_strategy downloadErr frameOk manifest_map thumb_counts
        files st).targetNames
  | [], _ => fun a h => h
  | src :: rest, st => by
    intro a ha
    show a ∈ (syncCore overwrite cover_strategy downloadErr frameOk manifest_map thumb_counts
      rest (syncOne overwrite cover_strategy downloadErr frameOk manifest_map thumb_counts
        st src)).targetNames
    exact syncCore_targetNames_mono overwrite cover_strategy downloadErr frameOk
      manifest_map thumb_counts rest _
      (syncOne_targetNames_mono overwrite cover_strategy downloadErr frameOk
        manifest_map thumb_counts st src ha)

theorem syncCore_names_mem (overwrite : Bool) (cover_strategy : String)
    (downloadErr : String → Option String) (frameOk : String → Bool)
    (manifest_map : List (String × MItem)) (thumb_counts : List (String × Nat)) :
    ∀ (files : List VideoFile) (st : SyncState) (src : VideoFile), src ∈ files →
    src.name ∈
      (syncCore overwrite cover_strategy downloadErr frameOk manifest_map thumb_counts
        files st).targetNames := by
  intro files
  induction files with
  | nil => intro st src h; exact absurd h (by simp)
  | cons b t ih =>
    intro st src h
    rcases List.mem_cons.mp h with h1 | h1
    · show src.name ∈ (syncCore overwrite cover_strategy downloadErr frameOk manifest_map
        thumb_counts t (syncOne overwrite cover_strategy downloadErr frameOk manifest_map
          thumb_counts st b)).targetNames
      refine syncCore_targetNames_mono overwrite cover_strategy downloadErr frameOk
        manifest_map thumb_counts t _ ?_
      rw [h1]
      exact syncOne_name_mem overwrite cover_strategy downloadErr frameOk
        manifest_map thumb_counts st b
    · exact ih _ src h1

theorem syncOne_skip (cover_strategy : String)
    (downloadErr : String → Option String) (frameOk : String → Bool)
    (manifest_map : List (String × MItem)) (thumb_counts : List (String × Nat))
    (st : SyncState) (src : VideoFile) (h : src.name ∈ st.targetNames) :
    syncOne false cover_strategy downloadErr frameOk manifest_map thumb_counts st src = st := by
  unfold syncOne
  have hc : (st.targetNames.contains src.name && !false) = true := by
    simpa using h
  rw [if_pos hc]

theorem syncCore_skip_all (cover_strategy : String)
    (downloadErr : String → Option String) (frameOk : String → Bool)
    (manifest_map : List (String × MItem)) (thumb_counts : List (String × Nat)) :
    ∀ (files : List VideoFile) (st : SyncState),
    (∀ src ∈ files, src.name ∈ st.targetNames) →
    syncCore false cover_strategy downloadErr frameOk manifest_map thumb_counts files st = st := by
  intro files
  induction files with
  | nil => intro st _; rfl
  | cons b t ih =>
    intro st h
    show syncCore false cover_strategy downloadErr frameOk manifest_map thumb_counts t
      (syncOne false cover_strategy downloadErr frameOk manifest_map thumb_counts st b) = st
    rw [syncOne_skip cover_strategy downloadErr frameOk manifest_map thumb_counts st b
      (h b (List.mem_cons_self _ _))]
    exact ih st (fun src hs => h src (List.mem_cons_of_mem _ hs))

/-- The untouched-name invariant for C4: `n` stays present in the target and
is never copied nor recorded. -/
def SkipInv (n : String) (st : SyncState) : Prop :=
  n ∈ st.targetNames ∧ n ∉ st.copies ∧ ∀ r ∈ st.results, r.name ≠ n

theorem syncOne_skipInv (cover_strategy : String)
    (downloadErr : String → Option String) (frameOk : String → Bool)
    (manifest_map : List (String × MItem)) (thumb_counts : List (String × Nat))
    (n : String) (st : SyncState) (src : VideoFile) (h : SkipInv n st) :
    SkipInv n
      (syncOne false cover_strategy downloadErr frameOk manifest_map thumb_counts st src) := by
  unfold syncOne
  by_cases hskip : (st.targetNames.contains src.name && !false) = true
  · rw [if_pos hskip]; exact h
  · rw [if_neg hskip]
    simp only []
    have hne : src.name ≠ n := by
      intro he
      apply hskip
      have : st.targetNames.contains src.name = true := by
        rw [he]; simpa using h.1
      simpa using this
    have hp := syncCoverCall_preserve false cover_strategy downloadErr frameOk
      manifest_map thumb_counts (syncCopyState manifest_map st src) src
    refine ⟨?_, ?_, ?_⟩
    · refine hp.2.2.2 ?_
      simp only [syncCopyState, List.append_assoc, List.mem_append]
      exact Or.inl h.1
    · simp only [hp.2.2.1]
      simp only [syncCopyState]
      simp only [List.mem_append, List.mem_singleton]
      rintro (hc | hc)
      · exact h.2.1 hc
      · exact hne hc.symm
    · intro r hr
      simp only [hp.1] at hr
      simp only [syncCopyState] at hr
      rcases List.mem_append.mp hr with hr | hr
      · exact h.2.2 r hr
      · have hre := List.mem_singleton.mp hr
        rw [hre]
        simp only [syncResultOf]
        exact hne


/-- C4: with overwrite off, a destination name already present in the target
directory is never copied and never appears in the run's results; and
re-running `sync_videos` with identical inputs from the state the first run
left behind performs zero copies, writes zero sidecars, attempts zero
downloads, records zero results, and leaves the target untouched. -/
theorem C4_skip_existing_and_idempotent
    (manifest : ManifestFile) (dirFiles : List VideoFile) (target0 : List String)
    (limit : Int) (cover_strategy video_variant source_mode : String)
    (downloadErr : String → Option String) (frameOk : String → Bool)
    (n : String) (out : SyncState)
    (hrun : sync_videos manifest dirFiles target0 limit false cover_strategy
      video_variant source_mode downloadErr frameOk = .ok out) :
    (n ∈ target0 → n ∉ out.copies ∧ ∀ r ∈ out.results, r.name ≠ n) ∧
    sync_videos manifest dirFiles out.targetNames limit false cover_strategy
      video_variant source_mode downloadErr frameOk
      = .ok { targetNames := out.targetNames } := by
  unfold sync_videos at hrun ⊢
  cases hl : load_manifest_index manifest with
  | error e => rw [hl] at hrun; exact absurd hrun (by simp)
  | ok triple =>
    obtain ⟨entries, mm, tc⟩ := triple
    rw [hl] at hrun
    simp only [Except.ok.injEq] at hrun
    constructor
    · intro hn
      have hinv : SkipInv n out := by
        rw [← hrun]
        unfold syncCore
        refine foldl_inv (SkipInv n) _
          (fun s b hs => syncOne_skipInv cover_strategy downloadErr frameOk mm tc n s b hs)
          _ _ ?_
        exact ⟨hn, by simp, by simp⟩
      exact ⟨hinv.2.1, hinv.2.2⟩
    · have hmem : ∀ src ∈ ordered_source_videos dirFiles entries limit video_variant
          source_mode, src.name ∈ out.targetNames := by
        intro src hs
        rw [← hrun]
        exact syncCore_names_mem false cover_strategy downloadErr frameOk mm tc _ _ src hs
      have hskipall := syncCore_skip_all cover_strategy downloadErr frameOk mm tc
        (ordered_source_videos dirFiles entries limit video_variant source_mode)
        { targetNames := out.targetNames } (fun src hs => hmem src hs)
      exact congrArg Except.ok hskipall

unseal List.merge List.mergeSort in
/-- C4 witness: a concrete re-run over `a.mp4` with the destination already
present: nothing is copied or recorded, and the run is a no-op. -/
theorem C4_witness :
    ("a.mp4" ∉ ({ targetNames := ["a.mp4"] } : SyncState).copies ∧
      ∀ r ∈ ({ targetNames := ["a.mp4"] } : SyncState).results, r.name ≠ "a.mp4") ∧
    sync_videos ManifestFile.missing [⟨"a.mp4", 0⟩] ["a.mp4"] 0 false "frame" "all" "daily"
      (fun _ => none) (fun _ => false)
      = .ok { targetNames := ["a.mp4"] } := by
  have h := C4_skip_existing_and_idempotent ManifestFile.missing [⟨"a.mp4", 0⟩] ["a.mp4"]
    0 "frame" "all" "daily" (fun _ => none) (fun _ => false) "a.mp4"
    { targetNames := ["a.mp4"] } (by rfl)
  exact ⟨h.1 (by decide), h.2⟩

/-! ### C2 — duplicate-thumbnail avoidance -/

theorem try_manifest_cover_downloads (overwrite : Bool)
    (downloadErr : String → Option String) (url : String) (dup : Bool) (cov : String)
    (st : SyncState) (cl : CoverLocals) (u : String)
    (h : u ∈ (try_manifest_cover overwrite downloadErr url dup cov st cl).2.1.downloads) :
    u ∈ st.downloads ∨ (u = url ∧ dup = false ∧ url ≠ "") := by
  unfold try_manifest_cover at h
  split at h
  · exact Or.inl h
  · rename_i hurl
    split at h
    · exact Or.inl h
    · rename_i hdup
      split at h
      · exact Or.inl h
      · split at h
        · simp only [List.mem_append, List.mem_singleton] at h
          rcases h with h | h
          · exact Or.inl h
          · exact Or.inr ⟨h, Bool.of_not_eq_true hdup |>.symm ▸ rfl, hurl⟩
        · simp only [List.mem_append, List.mem_singleton] at h
          rcases h with h | h
          · exact Or.inl h
          · exact Or.inr ⟨h, Bool.of_not_eq_true hdup |>.symm ▸ rfl, hurl⟩

theorem try_manifest_cover_dup (overwrite : Bool)
    (downloadErr : String → Option String) (url : String) (cov : String)
    (st : SyncState) (cl : CoverLocals) (hurl : url ≠ "") :
    try_manifest_cover overwrite downloadErr url true cov st cl =
      (false, st, { cl with cover_reason := some "thumbnail_url_duplicated_in_manifest" }) := by
  unfold try_manifest_cover
  rw [if_neg hurl, if_pos rfl]

theorem try_frame_cover_keeps_reason (overwrite : Bool) (frameOk : String → Bool)
    (dst cov : String) (st : SyncState) (cl : CoverLocals) (R : String)
    (hr : cl.cover_reason = some R) (hs : cl.cover_source = none) :
    ((try_frame_cover overwrite frameOk dst cov st cl).2.2.cover_source ≠ some "manifest") ∧
    (try_frame_cover overwrite frameOk dst cov st cl).2.2.cover_reason = some R := by
  unfold try_frame_cover
  split
  · simp [hr]
  · split
    · simp [hr]
    · simp [hr, hs]

theorem coverDispatch_downloads (overwrite : Bool) (strat : String)
    (downloadErr : String → Option String) (frameOk : String → Bool)
    (url : String) (dup : Bool) (dst cov : String) (st : SyncState) (u : String)
    (h : u ∈ (coverDispatch overwrite strat downloadErr frameOk url dup dst cov st).1.downloads) :
    u ∈ st.downloads ∨ (u = url ∧ dup = false ∧ url ≠ "") := by
  unfold coverDispatch at h
  split at h
  · exact try_manifest_cover_downloads overwrite downloadErr url dup cov st {} u h
  · split at h
    · rw [(try_frame_cover_preserve overwrite frameOk dst cov st {}).2.2.2.1] at h
      exact Or.inl h
    · split at h
      · exact try_manifest_cover_downloads overwrite downloadErr url dup cov st {} u h
      · rw [(try_frame_cover_preserve overwrite frameOk dst cov
          (try_manifest_cover overwrite downloadErr url dup cov st {}).2.1
          (try_manifest_cover overwrite downloadErr url dup cov st {}).2.2).2.2.2.1] at h
        exact try_manifest_cover_downloads overwrite downloadErr url dup cov st {} u h

theorem coverDispatch_dup (overwrite : Bool) (strat : String)
    (downloadErr : String → Option String) (frameOk : String → Bool)
    (url : String) (dst cov : String) (st : SyncState)
    (hurl : url ≠ "") (hstrat : strat ≠ "frame") :
    (coverDispatch overwrite strat downloadErr frameOk url true dst cov st).1.downloads
      = st.downloads ∧
    (coverDispatch overwrite strat downloadErr frameOk url true dst cov st).2.cover_source
      ≠ some "manifest" ∧
    (coverDispatch overwrite strat downloadErr frameOk url true dst cov st).2.cover_reason
      = some "thumbnail_url_duplicated_in_manifest" := by
  unfold coverDispatch
  by_cases h1 : strat = "manifest"
  · rw [if_pos h1, try_manifest_cover_dup overwrite downloadErr url cov st {} hurl]
    exact ⟨rfl, by simp, rfl⟩
  · rw [if_neg h1, if_neg hstrat,
      try_manifest_cover_dup overwrite downloadErr url cov st {} hurl]
    simp only [Bool.false_eq_true, if_false]
    have hf := try_frame_cover_keeps_reason overwrite frameOk dst cov st
      { thumbnail_file := "", cover_source := none,
        cover_reason := some "thumbnail_url_duplicated_in_manifest" }
      "thumbnail_url_duplicated_in_manifest" rfl rfl
    have hfd := (try_frame_cover_preserve overwrite frameOk dst cov st
      { thumbnail_file := "", cover_source := none,
        cover_reason := some "thumbnail_url_duplicated_in_manifest" }).2.2.2.1
    exact ⟨hfd, hf.1, hf.2⟩

/-- The per-run duplicate-thumbnail invariant: flagged results never carry a
manifest cover and keep the duplicate reason, and every attempted download had
a unique URL. -/
def DupInv (tc : List (String × Nat)) (st : SyncState) : Prop :=
  (∀ r ∈ st.results, ∀ u, r.thumbnail_url = some u → 1 < tcGet tc u →
     r.cover_source ≠ some "manifest" ∧
     r.cover_reason = some "thumbnail_url_duplicated_in_manifest") ∧
  (∀ u ∈ st.downloads, tcGet tc u ≤ 1)

theorem syncOne_dupInv (overwrite : Bool) (cover_strategy : String)
    (downloadErr : String → Option String) (frameOk : String → Bool)
    (manifest_map : List (String × MItem)) (thumb_counts : List (String × Nat))
    (hstrat : normStrategy cover_strategy = "auto" ∨ normStrategy cover_strategy = "manifest")
    (st : SyncState) (src : VideoFile) (h : DupInv thumb_counts st) :
    DupInv thumb_counts
      (syncOne overwrite cover_strategy downloadErr frameOk manifest_map thumb_counts
        st src) := by
  unfold syncOne
  by_cases hskip : (st.targetNames.contains src.name && !overwrite) = true
  · rw [if_pos hskip]; exact h
  · rw [if_neg hskip]
    simp only []
    have hsne : normStrategy cover_strategy ≠ "frame" := by
      rcases hstrat with hs | hs <;> rw [hs] <;> decide
    constructor
    · intro r hr u hu hcount
      have hp := syncCoverCall_preserve overwrite cover_strategy downloadErr frameOk
        manifest_map thumb_counts (syncCopyState manifest_map st src) src
      simp only [hp.1] at hr
      simp only [syncCopyState] at hr
      rcases List.mem_append.mp hr with hr | hr
      · exact h.1 r hr u hu hcount
      · have hre := List.mem_singleton.mp hr
        subst hre
        simp only [syncResultOf] at hu ⊢
        by_cases hurl : syncThumbUrl manifest_map (normalized_asset_id_from_video src.name) = ""
        · rw [if_pos hurl] at hu; exact absurd hu (by simp)
        · rw [if_neg hurl] at hu
          have huu : u = syncThumbUrl manifest_map (normalized_asset_id_from_video src.name) :=
            (Option.some.injEq _ _ ▸ hu).symm
          have hdup : syncDup thumb_counts
              (syncThumbUrl manifest_map (normalized_asset_id_from_video src.name)) = true := by
            unfold syncDup
            rw [← huu]
            simp only [Bool.and_eq_true, bne_iff_ne, ne_eq, decide_eq_true_eq]
            exact ⟨by rw [huu]; exact hurl, hcount⟩
          have hd := coverDispatch_dup overwrite (normStrategy cover_strategy) downloadErr
            frameOk (syncThumbUrl manifest_map (normalized_asset_id_from_video src.name))
            src.name (pyStem src.name ++ ".png") (syncCopyState manifest_map st src)
            hurl hsne
          unfold syncCoverCall
          rw [hdup]
          exact ⟨hd.2.1, hd.2.2⟩
    · intro u hu
      have hdl := coverDispatch_downloads overwrite (normStrategy cover_strategy)
        downloadErr frameOk
        (syncThumbUrl manifest_map (normalized_asset_id_from_video src.name))
        (syncDup thumb_counts
          (syncThumbUrl manifest_map (normalized_asset_id_from_video src.name)))
        src.name (pyStem src.name ++ ".png") (syncCopyState manifest_map st src) u
        (by exact hu)
      rcases hdl with hdl | ⟨hequ, hdupf, hurl⟩
      · simp only [syncCopyState] at hdl
        exact h.2 u hdl
      · subst hequ
        unfold syncDup at hdupf
        simp only [Bool.and_eq_false_iff] at hdupf
        rcases hdupf with hdupf | hdupf
        · exact absurd (by simpa using hdupf) hurl
        · have := of_decide_eq_false hdupf
          omega

/-- C2: under strategy `auto` or `manifest`, every result whose resolved
thumbnail URL is counted more than once in the manifest index never gets cover
source `manifest`, keeps the skip reason
`thumbnail_url_duplicated_in_manifest`, and its URL is never passed to the
thumbnail downloader during the run; indeed every downloaded URL has count at
most one. -/
theorem C2_duplicate_thumbnail_never_used
    (manifest : ManifestFile) (dirFiles : List VideoFile) (target0 : List String)
    (limit : Int) (overwrite : Bool) (cover_strategy video_variant source_mode : String)
    (downloadErr : String → Option String) (frameOk : String → Bool)
    (entries : List MItem) (mm : List (String × MItem)) (tc : List (String × Nat))
    (out : SyncState)
    (hload : load_manifest_index manifest = .ok (entries, mm, tc))
    (hrun : sync_videos manifest dirFiles target0 limit overwrite cover_strategy
      video_variant source_mode downloadErr frameOk = .ok out)
    (hstrat : normStrategy cover_strategy = "auto" ∨ normStrategy cover_strategy = "manifest") :
    (∀ r ∈ out.results, ∀ u, r.thumbnail_url = some u → 1 < tcGet tc u →
       r.cover_source ≠ some "manifest" ∧
       r.cover_reason = some "thumbnail_url_duplicated_in_manifest" ∧
       u ∉ out.downloads) ∧
    (∀ u ∈ out.downloads, tcGet tc u ≤ 1) := by
  unfold sync_videos at hrun
  rw [hload] at hrun
  simp only [Except.ok.injEq] at hrun
  have hinv : DupInv tc out := by
    rw [← hrun]
    unfold syncCore
    refine foldl_inv (DupInv tc) _
      (fun s b hs => syncOne_dupInv overwrite cover_strategy downloadErr frameOk
        mm tc hstrat s b hs) _ _ ?_
    exact ⟨fun r hr => absurd hr (by simp), fun u hu => absurd hu (by simp)⟩
  refine ⟨?_, hinv.2⟩
  intro r hr u hu hcount
  refine ⟨(hinv.1 r hr u hu hcount).1, (hinv.1 r hr u hu hcount).2, ?_⟩
  intro hmem
  exact absurd hcount (by have := hinv.2 u hmem; omega)

/-- The duplicated-thumbnail manifest of the C2 witness: two distinct assets
resolve to the same URL. -/
def c2Entries : List MItem :=
  [{ asset_id := some "x", thumbnail := some "http://u/thumb.png" },
   { asset_id := some "y", thumbnail := some "http://u/thumb.png" }]

/-- The single result of the C2 witness run. -/
def c2Result : SyncResult :=
  { name := "x.mp4", asset_id := "x", mp4 := "x.mp4", txt := "x.txt", title := "x",
    thumbnail_url := some "http://u/thumb.png", thumbnail_file := none,
    cover_source := none,
    cover_reason := some "thumbnail_url_duplicated_in_manifest" }

/-- The final state of the C2 witness run. -/
def c2Out : SyncState :=
  { targetNames := ["x.mp4", "x.txt"], copies := ["x.mp4"],
    sidecars := [("x.txt", "x\n#sora\n")], downloads := [], results := [c2Result] }

unseal List.merge List.mergeSort in
/-- C2 witness: a concrete `auto` run over `x.mp4` whose manifest thumbnail
URL is shared by assets `x` and `y`: the cover falls back to frame extraction
(failing here), the reason is the duplicate skip, and nothing is downloaded. -/
theorem C2_witness :
    c2Result.cover_source ≠ some "manifest" ∧
    c2Result.cover_reason = some "thumbnail_url_duplicated_in_manifest" ∧
    "http://u/thumb.png" ∉ c2Out.downloads :=
  (C2_duplicate_thumbnail_never_used (ManifestFile.parsed (JsonData.arr c2Entries))
    [⟨"x.mp4", 0⟩] [] 0 false "auto" "all" "daily" (fun _ => none) (fun _ => false)
    c2Entries
    [("x", { asset_id := some "x", thumbnail := some "http://u/thumb.png" }),
     ("y", { asset_id := some "y", thumbnail := some "http://u/thumb.png" })]
    [("http://u/thumb.png", 2)] c2Out (by rfl) (by rfl) (Or.inl (by decide))).1
    c2Result (by decide) "http://u/thumb.png" (by decide) (by decide)

/-! ### C3, C10 — flat-mode ordering -/

/-- The invariant of the flat manifest-priority pass: `used_names` is exactly
the (duplicate-free) list of selected file names, and every selected file is
one of the directory's files. -/
def FlatPassInv (files : List VideoFile) (st : FlatSt) : Prop :=
  st.used = st.selected.map (fun p => p.name) ∧ st.used.Nodup ∧
  ∀ p ∈ st.selected, p ∈ files

theorem flatTryName_inv (files : List VideoFile) (st : FlatSt) (n : String)
    (h : FlatPassInv files st) : FlatPassInv files (flatTryName (byNameOf files) st n) := by
  unfold flatTryName
  by_cases hc : st.used.contains n = true
  · rw [if_pos hc]; exact h
  · rw [if_neg hc]
    cases hg : dictGet (byNameOf files) n with
    | none => exact h
    | some p =>
      have hp := byNameOf_mem (dictGet_eq_some_mem hg)
      refine ⟨?_, ?_, ?_⟩
      · simp only [List.map_append, List.map_cons, List.map_nil]
        rw [h.1, hp.1]
      · rw [List.nodup_append]
        refine ⟨h.2.1, List.nodup_singleton n, ?_⟩
        intro a ha hb
        have : a = n := by simpa using hb
        subst this
        exact absurd (by simpa using ha) (fun hmem => hc (by simpa using hmem))
      · intro q hq
        rcases List.mem_append.mp hq with hq | hq
        · exact h.2.2 q hq
        · rw [List.mem_singleton.mp hq]; exact hp.2

theorem flatStep_inv (files : List VideoFile) (video_variant : String)
    (st : FlatSt) (item : MItem) (h : FlatPassInv files st) :
    FlatPassInv files (flatStep (byNameOf files) video_variant st item) := by
  unfold flatStep
  split
  · exact h
  · refine foldl_inv (FlatPassInv files) _
      (fun s n hs => flatTryName_inv files s n hs) _ _ ?_
    exact h

theorem flatPass_inv (files : List VideoFile) (manifest_entries : List MItem)
    (video_variant : String) :
    FlatPassInv files (flatPass files manifest_entries video_variant) := by
  unfold flatPass
  refine foldl_inv (FlatPassInv files) _
    (fun s b hs => flatStep_inv files video_variant s b hs) _ _ ?_
  exact ⟨rfl, List.nodup_nil, by simp⟩

theorem flatTryName_nilDict (st : FlatSt) (n : String) :
    flatTryName ([] : List (String × VideoFile)) st n = st := by
  unfold flatTryName
  split
  · rfl
  · rfl

theorem flatStep_nil_fields (video_variant : String) (st : FlatSt) (item : MItem) :
    (flatStep (byNameOf []) video_variant st item).selected = st.selected ∧
    (flatStep (byNameOf []) video_variant st item).used = st.used := by
  unfold flatStep
  split
  · exact ⟨rfl, rfl⟩
  · have hfold : ∀ (ns : List String) (s : FlatSt),
        ns.foldl (flatTryName (byNameOf ([] : List VideoFile))) s = s := by
      intro ns
      induction ns with
      | nil => intro s; rfl
      | cons a t ih =>
        intro s
        show t.foldl (flatTryName (byNameOf ([] : List VideoFile)))
          (flatTryName (byNameOf ([] : List VideoFile)) s a) = s
        rw [show (byNameOf ([] : List VideoFile)) = [] from rfl, flatTryName_nilDict]
        exact ih s
    rw [hfold]
    exact ⟨rfl, rfl⟩

theorem flatPass_nil_fields (manifest_entries : List MItem) (video_variant : String) :
    (flatPass ([] : List VideoFile) manifest_entries video_variant).selected = [] ∧
    (flatPass ([] : List VideoFile) manifest_entries video_variant).used = [] := by
  unfold flatPass
  have hinv : ∀ (l : List MItem) (st : FlatSt),
      (l.foldl (flatStep (byNameOf ([] : List VideoFile)) video_variant) st).selected
        = st.selected ∧
      (l.foldl (flatStep (byNameOf ([] : List VideoFile)) video_variant) st).used
        = st.used := by
    intro l
    induction l with
    | nil => intro st; exact ⟨rfl, rfl⟩
    | cons b t ih =>
      intro st
      refine ⟨?_, ?_⟩
      · show (t.foldl (flatStep (byNameOf ([] : List VideoFile)) video_variant)
          (flatStep (byNameOf ([] : List VideoFile)) video_variant st b)).selected = _
        rw [(ih _).1, (flatStep_nil_fields video_variant st b).1]
      · show (t.foldl (flatStep (byNameOf ([] : List VideoFile)) video_variant)
          (flatStep (byNameOf ([] : List VideoFile)) video_variant st b)).used = _
        rw [(ih _).2, (flatStep_nil_fields video_variant st b).2]
  exact hinv manifest_entries {}

theorem flatBackfill_not_used (files : List VideoFile) (used : List String)
    (x : VideoFile) (h : x ∈ flatBackfill files used) :
    used.contains x.name = false ∧ x ∈ files := by
  unfold flatBackfill at h
  rw [List.mem_mergeSort] at h
  have h2 := List.mem_filter.mp h
  refine ⟨?_, h2.1⟩
  have := h2.2
  simp only [Bool.not_eq_true'] at this
  exact this

theorem flat_selection_decomposition (dirFiles : List VideoFile)
    (manifest_entries : List MItem) (video_variant : String) :
    ordered_source_videos dirFiles manifest_entries 0 video_variant "flat"
      = (flatPass (list_syncable_videos dirFiles video_variant) manifest_entries
          video_variant).selected
        ++ flatBackfill (list_syncable_videos dirFiles video_variant)
            (flatPass (list_syncable_videos dirFiles video_variant) manifest_entries
              video_variant).used := by
  unfold ordered_source_videos
  by_cases he : (list_syncable_videos dirFiles video_variant).isEmpty
  · rw [if_pos he]
    have hnil : list_syncable_videos dirFiles video_variant = [] := by simpa using he
    rw [hnil]
    rw [(flatPass_nil_fields manifest_entries video_variant).1,
        (flatPass_nil_fields manifest_entries video_variant).2]
    unfold flatBackfill
    simp
  · rw [if_neg he, if_pos rfl, if_neg (by decide : ¬ ((0 : Int) < 0))]

/-- C3: in flat mode with no limit, the File Selector's output is the
manifest-priority pass (walking entries in order, skipping blank or repeated
asset ids, matching expected filenames per variant) followed by the
mtime-descending backfill of unused files; consequently, every
manifest-matched file (name in `used_names`) sits at a strictly earlier
position than every unmatched file. -/
theorem C3_flat_manifest_priority (dirFiles : List VideoFile)
    (manifest_entries : List MItem) (video_variant : String) :
    (ordered_source_videos dirFiles manifest_entries 0 video_variant "flat"
      = (flatPass (list_syncable_videos dirFiles video_variant) manifest_entries
          video_variant).selected
        ++ flatBackfill (list_syncable_videos dirFiles video_variant)
            (flatPass (list_syncable_videos dirFiles video_variant) manifest_entries
              video_variant).used) ∧
    (∀ (i j : Nat) (a b : VideoFile),
      (ordered_source_videos dirFiles manifest_entries 0 video_variant "flat")[i]? = some a →
      (ordered_source_videos dirFiles manifest_entries 0 video_variant "flat")[j]? = some b →
      (flatPass (list_syncable_videos dirFiles video_variant) manifest_entries
        video_variant).used.contains a.name = true →
      (flatPass (list_syncable_videos dirFiles video_variant) manifest_entries
        video_variant).used.contains b.name = false →
      i < j) := by
  have heq := flat_selection_decomposition dirFiles manifest_entries video_variant
  refine ⟨heq, ?_⟩
  intro i j a b hia hjb hca hcb
  set files := list_syncable_videos dirFiles video_variant with hfiles
  set st := flatPass files manifest_entries video_variant with hst
  have hinv := flatPass_inv files manifest_entries video_variant
  have hA : ∀ x ∈ st.selected, st.used.contains x.name = true := by
    intro x hx
    have : x.name ∈ st.used := by
      rw [hinv.1]
      exact List.mem_map.mpr ⟨x, hx, rfl⟩
    simpa using this
  have hB : ∀ x ∈ flatBackfill files st.used, st.used.contains x.name = false :=
    fun x hx => (flatBackfill_not_used files st.used x hx).1
  rw [heq] at hia hjb
  have hi : i < st.selected.length := by
    by_contra hge
    push_neg at hge
    rw [List.getElem?_append_right hge] at hia
    have hmem := List.getElem?_mem hia
    rw [hB a hmem] at hca
    exact absurd hca (by simp)
  have hj : st.selected.length ≤ j := by
    by_contra hlt
    push_neg at hlt
    rw [List.getElem?_append_left hlt] at hjb
    have hmem := List.getElem?_mem hjb
    rw [hA b hmem] at hcb
    exact absurd hcb (by simp)
  omega

unseal List.merge List.mergeSort in
/-- C3 witness: with manifest entry `x` and files `b.mp4`, `a.mp4`,
`x_wm.mp4`, the matched `x_wm.mp4` (position 0) precedes the unmatched
`a.mp4` (position 1). -/
theorem C3_witness : (0 : Nat) < 1 :=
  (C3_flat_manifest_priority [⟨"b.mp4", 1⟩, ⟨"a.mp4", 2⟩, ⟨"x_wm.mp4", 5⟩]
    [{ asset_id := some "x" }] "all").2 0 1 ⟨"x_wm.mp4", 5⟩ ⟨"a.mp4", 2⟩
    (by rfl) (by rfl) (by rfl) (by rfl)

/-- C10: in flat mode with limit 0, over a directory whose files have
pairwise-distinct names, the File Selector's output is a permutation of the
discovered, variant-filtered files: the manifest-priority pass never selects
the same filename twice, and the backfill appends exactly the files the pass
did not select. -/
theorem C10_flat_no_limit_permutation (dirFiles : List VideoFile)
    (manifest_entries : List MItem) (video_variant : String)
    (hnodup : (list_syncable_videos dirFiles video_variant).Pairwise
      (fun a b => a.name ≠ b.name)) :
    (ordered_source_videos dirFiles manifest_entries 0 video_variant "flat").Perm
      (list_syncable_videos dirFiles video_variant) := by
  rw [flat_selection_decomposition dirFiles manifest_entries video_variant]
  set files := list_syncable_videos dirFiles video_variant with hfiles
  set st := flatPass files manifest_entries video_variant with hst
  have hinv := flatPass_inv files manifest_entries video_variant
  have hfilesnd : files.Nodup :=
    hnodup.imp (fun hne heq => hne (congrArg VideoFile.name heq))
  have hselnd : st.selected.Nodup := by
    have hu := hinv.2.1
    rw [hinv.1] at hu
    exact List.Nodup.of_map _ hu
  have hBperm : (flatBackfill files st.used).Perm
      (files.filter (fun p => !st.used.contains p.name)) :=
    List.mergeSort_perm _ _
  refine ((hBperm.append_left st.selected).trans ?_)
  have hnodL : (st.selected ++ files.filter (fun p => !st.used.contains p.name)).Nodup := by
    rw [List.nodup_append]
    refine ⟨hselnd, hfilesnd.filter _, ?_⟩
    intro x hx hxf
    have h1 : x.name ∈ st.used := by
      rw [hinv.1]
      exact List.mem_map.mpr ⟨x, hx, rfl⟩
    have h2 := (List.mem_filter.mp hxf).2
    simp only [Bool.not_eq_true'] at h2
    rw [(by simpa using h1 : st.used.contains x.name = true)] at h2
    exact absurd h2 (by simp)
  have hmem : ∀ x, x ∈ st.selected ++ files.filter (fun p => !st.used.contains p.name)
      ↔ x ∈ files := by
    intro x
    constructor
    · intro hx
      rcases List.mem_append.mp hx with hx | hx
      · exact hinv.2.2 x hx
      · exact (List.mem_filter.mp hx).1
    · intro hx
      by_cases hc : st.used.contains x.name = true
      · have h1 : x.name ∈ st.used := by simpa using hc
        rw [hinv.1] at h1
        obtain ⟨y, hy, hyn⟩ := List.mem_map.mp h1
        have hyx : y = x := by
          by_contra hne
          exact (List.Pairwise.forall
            (by intro p q hpq heq; exact hpq heq.symm) hnodup
            (hinv.2.2 y hy) hx hne) hyn
        rw [← hyx]
        exact List.mem_append.mpr (Or.inl hy)
      · refine List.mem_append.mpr (Or.inr ?_)
        refine List.mem_filter.mpr ⟨hx, ?_⟩
        simp only [Bool.not_eq_true']
        exact Bool.of_not_eq_true hc
  exact (List.perm_ext_iff_of_nodup hnodL hfilesnd).mpr hmem

unseal List.merge List.mergeSort in
/-- C10 witness: in the concrete flat run of the C3 scenario, the output is a
permutation of the three discovered files (distinct names discharged by
decision). -/
theorem C10_witness :
    (ordered_source_videos [⟨"b.mp4", 1⟩, ⟨"a.mp4", 2⟩, ⟨"x_wm.mp4", 5⟩]
      [{ asset_id := some "x" }] 0 "all" "flat").Perm
      (list_syncable_videos [⟨"b.mp4", 1⟩, ⟨"a.mp4", 2⟩, ⟨"x_wm.mp4", 5⟩] "all") :=
  C10_flat_no_limit_permutation [⟨"b.mp4", 1⟩, ⟨"a.mp4", 2⟩, ⟨"x_wm.mp4", 5⟩]
    [{ asset_id := some "x" }] "all" (by decide)

end SoraSync
